import Mathlib

/-
Verification of the quantitative analysis engine of AlphaSeeker-AI
(`finance_engine.py`, `app.py`).

Conventions of the shallow embedding:
* Python floats are modelled as exact rationals (`ℚ`); IEEE-754 rounding is
  abstracted away.  Where the code relies on IEEE special values
  (NaN, ±inf) they are modelled explicitly.
* Values that may be missing / NaN at an interface are `Option ℚ`
  (`none` = NaN or absent).
* A Python function that can raise an uncaught exception is given an
  explicit outcome type.
-/

/-- Outcome of `FinanceEngine.calculate_reverse_dcf`: the Python function either
returns `np.nan` (modelled `nan`), lets a `ZeroDivisionError` escape (modelled
`exn`), or returns an ordinary float (modelled `val`). -/
inductive DCFOutcome where
  | nan : DCFOutcome
  | exn : DCFOutcome
  | val : ℚ → DCFOutcome
deriving DecidableEq

/-- The 10-year projection loop of `FinanceEngine._calculate_dcf_value`
(finance_engine.py lines 134-141).  After `n` iterations the first component is
the Python variable `total_value` and the second is `current_fcf`. -/
def dcfProject (fcf g r : ℚ) : ℕ → ℚ × ℚ
  | 0 => (0, fcf)
  | n + 1 =>
    let p := dcfProject fcf g r n
    let c := p.2 * (1 + g)
    (p.1 + c / (1 + r) ^ (n + 1), c)

/-- `FinanceEngine._calculate_dcf_value` (finance_engine.py lines 132-148):
10-year discounted projection plus the Gordon terminal value
`current_fcf * (1 + tg) / (r - tg)` discounted back 10 periods. -/
def calculate_dcf_value (fcf g r tg : ℚ) : ℚ :=
  (dcfProject fcf g r 10).1
    + ((dcfProject fcf g r 10).2 * (1 + tg)) / (r - tg) / (1 + r) ^ 10

/-- The forward valuation exactly as the specification words it: compound `fcf`
at rate `g` for 10 periods, discount each period's flow at `r`, sum the 10
discounted flows, and add the terminal value `fcf₁₀ (1+tg) / (r - tg)`
discounted back 10 periods. -/
def specDcfValue (fcf g r tg : ℚ) : ℚ :=
  (∑ i ∈ Finset.range 10, fcf * (1 + g) ^ (i + 1) / (1 + r) ^ (i + 1))
    + fcf * (1 + g) ^ 10 * (1 + tg) / ((r - tg) * (1 + r) ^ 10)

lemma dcfProject_eq (fcf g r : ℚ) (n : ℕ) :
    dcfProject fcf g r n
      = (∑ i ∈ Finset.range n, fcf * (1 + g) ^ (i + 1) / (1 + r) ^ (i + 1),
         fcf * (1 + g) ^ n) := by
  induction n with
  | zero => simp [dcfProject]
  | succ n ih =>
    simp only [dcfProject, ih]
    rw [Prod.mk.injEq]
    refine ⟨?_, by ring⟩
    rw [Finset.sum_range_succ]
    ring

/-- The loop in the source computes exactly the specification's reference
valuation (shared helper). -/
lemma dcfValue_eq_spec (fcf g r tg : ℚ) :
    calculate_dcf_value fcf g r tg = specDcfValue fcf g r tg := by
  simp only [calculate_dcf_value, dcfProject_eq, specDcfValue]
  rw [div_div]

lemma gordonRegroup (fcf u w d : ℚ) (hw : w ≠ 0) (hd : d ≠ 0) :
    fcf * u ^ 10 / w ^ 10 + fcf * u ^ 10 * (w - d) / (d * w ^ 10)
      = fcf * (u / w) ^ 10 * (w / d) := by
  field_simp
  ring

/-- Closed form of the valuation used for monotonicity/positivity: with
`μ = (1+g)/(1+r)`, the value is `fcf·(μ + ⋯ + μ⁹) + fcf·μ¹⁰·(1+r)/(r-tg)`. -/
lemma dcf_closed_form (fcf g r tg : ℚ) (hr : 1 + r ≠ 0) (hrtg : r - tg ≠ 0) :
    calculate_dcf_value fcf g r tg
      = (∑ i ∈ Finset.range 9, fcf * ((1 + g) / (1 + r)) ^ (i + 1))
        + fcf * ((1 + g) / (1 + r)) ^ 10 * ((1 + r) / (r - tg)) := by
  rw [dcfValue_eq_spec]
  simp only [specDcfValue]
  rw [Finset.sum_range_succ]
  have hs : (∑ i ∈ Finset.range 9, fcf * (1 + g) ^ (i + 1) / (1 + r) ^ (i + 1))
      = ∑ i ∈ Finset.range 9, fcf * ((1 + g) / (1 + r)) ^ (i + 1) := by
    refine Finset.sum_congr rfl fun i _ => ?_
    rw [div_pow]
    ring
  rw [hs, show (9 : ℕ) + 1 = 10 from rfl]
  have key := gordonRegroup fcf (1 + g) (1 + r) (r - tg) hr hrtg
  rw [show (1 + r) - (r - tg) = 1 + tg from by ring] at key
  linarith [key]

lemma dcf_strict_mono (fcf r tg g₁ g₂ : ℚ) (hf : 0 < fcf) (hr : -1 < r)
    (ht : tg < r) (hg₁ : -1 ≤ g₁) (h12 : g₁ < g₂) :
    calculate_dcf_value fcf g₁ r tg < calculate_dcf_value fcf g₂ r tg := by
  have hr0 : (0 : ℚ) < 1 + r := by linarith
  have hrtg : (0 : ℚ) < r - tg := by linarith
  rw [dcf_closed_form fcf g₁ r tg (ne_of_gt hr0) (ne_of_gt hrtg),
      dcf_closed_form fcf g₂ r tg (ne_of_gt hr0) (ne_of_gt hrtg)]
  have hμ : (1 + g₁) / (1 + r) < (1 + g₂) / (1 + r) :=
    div_lt_div_of_pos_right (by linarith) hr0
  have hμ0 : 0 ≤ (1 + g₁) / (1 + r) := div_nonneg (by linarith) (le_of_lt hr0)
  have hK : (0 : ℚ) < (1 + r) / (r - tg) := div_pos hr0 hrtg
  have hsum : (∑ i ∈ Finset.range 9, fcf * ((1 + g₁) / (1 + r)) ^ (i + 1))
      < ∑ i ∈ Finset.range 9, fcf * ((1 + g₂) / (1 + r)) ^ (i + 1) := by
    apply Finset.sum_lt_sum_of_nonempty (by norm_num)
    intro i _
    exact mul_lt_mul_of_pos_left (pow_lt_pow_left₀ hμ hμ0 (Nat.succ_ne_zero i)) hf
  have hterm : fcf * ((1 + g₁) / (1 + r)) ^ 10 * ((1 + r) / (r - tg))
      < fcf * ((1 + g₂) / (1 + r)) ^ 10 * ((1 + r) / (r - tg)) := by
    apply mul_lt_mul_of_pos_right _ hK
    exact mul_lt_mul_of_pos_left (pow_lt_pow_left₀ hμ hμ0 (by norm_num)) hf
  linarith

lemma dcf_mono (fcf r tg g₁ g₂ : ℚ) (hf : 0 < fcf) (hr : -1 < r)
    (ht : tg < r) (hg₁ : -1 ≤ g₁) (h12 : g₁ ≤ g₂) :
    calculate_dcf_value fcf g₁ r tg ≤ calculate_dcf_value fcf g₂ r tg := by
  rcases eq_or_lt_of_le h12 with h | h
  · rw [h]
  · exact le_of_lt (dcf_strict_mono fcf r tg g₁ g₂ hf hr ht hg₁ h)

lemma dcf_pos (fcf g r tg : ℚ) (hf : 0 < fcf) (hr : -1 < r) (ht : tg < r)
    (hg : -1 < g) : 0 < calculate_dcf_value fcf g r tg := by
  have hr0 : (0 : ℚ) < 1 + r := by linarith
  have hrtg : (0 : ℚ) < r - tg := by linarith
  rw [dcf_closed_form fcf g r tg (ne_of_gt hr0) (ne_of_gt hrtg)]
  have hμ : (0 : ℚ) < (1 + g) / (1 + r) := div_pos (by linarith) hr0
  have hterm : (0 : ℚ) < fcf * ((1 + g) / (1 + r)) ^ 10 * ((1 + r) / (r - tg)) :=
    mul_pos (mul_pos hf (pow_pos hμ 10)) (div_pos hr0 hrtg)
  have hsum : (0 : ℚ) ≤ ∑ i ∈ Finset.range 9, fcf * ((1 + g) / (1 + r)) ^ (i + 1) := by
    apply Finset.sum_nonneg
    intro i _
    exact mul_nonneg (le_of_lt hf) (pow_nonneg (le_of_lt hμ) (i + 1))
  linarith

/-- The binary-search loop of `calculate_reverse_dcf` (finance_engine.py lines
114-130).  The fuel argument counts remaining iterations of `range(100)`; the
last `ℚ` argument threads the Python variable `mid`, which is what the final
`return mid * 100` yields when the budget is exhausted. -/
def searchGo (fcf r tg target : ℚ) : ℕ → ℚ → ℚ → ℚ → ℚ
  | 0, _, _, lastMid => lastMid * 100
  | n + 1, low, high, _ =>
    let mid := (low + high) / 2
    let dcfVal := calculate_dcf_value fcf mid r tg
    if |dcfVal - target| < target * (1 / 1000) then mid * 100
    else if dcfVal > target then searchGo fcf r tg target n low mid mid
    else searchGo fcf r tg target n mid high mid

/-- `FinanceEngine.calculate_reverse_dcf` (finance_engine.py lines 98-130).
The guard mirrors `not all([...]) or pd.isna(...) or free_cash_flow <= 0`
(`none` models NaN/None, `= 0` models Python falsiness of `0.0`).  When the
loop is entered with `discount_rate - terminal_growth_rate = 0` the terminal
division in `_calculate_dcf_value` raises `ZeroDivisionError` on the very first
iteration (likewise `1 + discount_rate = 0` makes the year-1 denominator zero);
both are modelled by the `exn` outcome, hoisted because the first loop
iteration always evaluates `_calculate_dcf_value` and the zero denominators do
not depend on `mid`. -/
def calculate_reverse_dcf (current_price free_cash_flow : Option ℚ)
    (discount_rate terminal_growth_rate : ℚ)
    (shares_outstanding : Option ℚ) : DCFOutcome :=
  match current_price, free_cash_flow, shares_outstanding with
  | some p, some f, some s =>
    if p = 0 ∨ f = 0 ∨ s = 0 ∨ f ≤ 0 then .nan
    else if discount_rate - terminal_growth_rate = 0 ∨ 1 + discount_rate = 0 then .exn
    else .val (searchGo f discount_rate terminal_growth_rate (p * s) 100 (-(1/2)) 1 0)
  | _, _, _ => .nan

/-- The precondition failures that `calculate_reverse_dcf`'s guard catches:
a missing/NaN input, a present-but-zero input, or non-positive free cash flow. -/
def invalidInputs (current_price free_cash_flow shares_outstanding : Option ℚ) : Prop :=
  current_price = none ∨ free_cash_flow = none ∨ shares_outstanding = none ∨
    current_price = some 0 ∨ shares_outstanding = some 0 ∨
    ∃ q, free_cash_flow = some q ∧ q ≤ 0

/-- The solver returns its NaN sentinel exactly on the guarded inputs. -/
lemma reverse_dcf_nan_iff (p f s : Option ℚ) (r tg : ℚ) :
    calculate_reverse_dcf p f r tg s = .nan ↔ invalidInputs p f s := by
  rcases p with _ | pq
  · simp [calculate_reverse_dcf, invalidInputs]
  rcases f with _ | fq
  · simp [calculate_reverse_dcf, invalidInputs]
  rcases s with _ | sq
  · simp [calculate_reverse_dcf, invalidInputs]
  have hmatch : calculate_reverse_dcf (some pq) (some fq) r tg (some sq)
      = (if pq = 0 ∨ fq = 0 ∨ sq = 0 ∨ fq ≤ 0 then DCFOutcome.nan
         else if r - tg = 0 ∨ 1 + r = 0 then DCFOutcome.exn
         else DCFOutcome.val (searchGo fq r tg (pq * sq) 100 (-(1/2)) 1 0)) := rfl
  rw [hmatch]
  unfold invalidInputs
  constructor
  · intro h
    by_cases hg : pq = 0 ∨ fq = 0 ∨ sq = 0 ∨ fq ≤ 0
    · rcases hg with h1 | h2 | h3 | h4
      · exact Or.inr (Or.inr (Or.inr (Or.inl (by rw [h1]))))
      · exact Or.inr (Or.inr (Or.inr (Or.inr (Or.inr ⟨fq, rfl, le_of_eq h2⟩))))
      · exact Or.inr (Or.inr (Or.inr (Or.inr (Or.inl (by rw [h3])))))
      · exact Or.inr (Or.inr (Or.inr (Or.inr (Or.inr ⟨fq, rfl, h4⟩))))
    · rw [if_neg hg] at h
      split_ifs at h
  · intro h
    have hg : pq = 0 ∨ fq = 0 ∨ sq = 0 ∨ fq ≤ 0 := by
      rcases h with h1 | h2 | h3 | h4 | h5 | h6
      · exact absurd h1 (by simp)
      · exact absurd h2 (by simp)
      · exact absurd h3 (by simp)
      · exact Or.inl (by injection h4)
      · exact Or.inr (Or.inr (Or.inl (by injection h5)))
      · obtain ⟨q, hq, hq0⟩ := h6
        obtain rfl : fq = q := by injection hq
        exact Or.inr (Or.inr (Or.inr hq0))
    rw [if_pos hg]

/-- On inputs that pass both guards the solver runs the binary search on
`target = current_price * shares_outstanding`. -/
lemma reverse_dcf_val_eq (p f s r tg : ℚ) (hp : p ≠ 0) (hs : s ≠ 0) (hf : 0 < f)
    (hrtg : r - tg ≠ 0) (hr : 1 + r ≠ 0) :
    calculate_reverse_dcf (some p) (some f) r tg (some s)
      = .val (searchGo f r tg (p * s) 100 (-(1/2)) 1 0) := by
  have hmatch : calculate_reverse_dcf (some p) (some f) r tg (some s)
      = (if p = 0 ∨ f = 0 ∨ s = 0 ∨ f ≤ 0 then DCFOutcome.nan
         else if r - tg = 0 ∨ 1 + r = 0 then DCFOutcome.exn
         else DCFOutcome.val (searchGo f r tg (p * s) 100 (-(1/2)) 1 0)) := rfl
  rw [hmatch, if_neg, if_neg]
  · push_neg
    exact ⟨hrtg, hr⟩
  · push_neg
    exact ⟨hp, ne_of_gt hf, hs, hf⟩

lemma searchGo_succ (fcf r tg target : ℚ) (n : ℕ) (low high lm : ℚ) :
    searchGo fcf r tg target (n + 1) low high lm
      = (if |calculate_dcf_value fcf ((low + high) / 2) r tg - target|
            < target * (1 / 1000)
         then ((low + high) / 2) * 100
         else if calculate_dcf_value fcf ((low + high) / 2) r tg > target
           then searchGo fcf r tg target n low ((low + high) / 2) ((low + high) / 2)
           else searchGo fcf r tg target n ((low + high) / 2) high ((low + high) / 2)) := rfl

lemma searchGo_zero (fcf r tg target low high lm : ℚ) :
    searchGo fcf r tg target 0 low high lm = lm * 100 := rfl

/-- Bisection invariant: when the target value is the forward valuation of a
growth rate `gs` lying inside the current bracket, the loop either stops in the
0.1 % value tolerance or halves the bracket around `gs` each iteration. -/
lemma searchGo_approx (fcf r tg gs : ℚ) (hf : 0 < fcf) (hr : -1 < r) (ht : tg < r) :
    ∀ (n : ℕ) (low high lm : ℚ), -1 ≤ low → low ≤ gs → gs ≤ high →
      |calculate_dcf_value fcf
          (searchGo fcf r tg (calculate_dcf_value fcf gs r tg) (n + 1) low high lm / 100) r tg
        - calculate_dcf_value fcf gs r tg|
        < calculate_dcf_value fcf gs r tg * (1 / 1000)
      ∨ |searchGo fcf r tg (calculate_dcf_value fcf gs r tg) (n + 1) low high lm / 100 - gs|
        ≤ (high - low) / 2 ^ (n + 1) := by
  intro n
  induction n with
  | zero =>
    intro low high lm h1 h2 h3
    rw [searchGo_succ]
    by_cases hc : |calculate_dcf_value fcf ((low + high) / 2) r tg
        - calculate_dcf_value fcf gs r tg|
        < calculate_dcf_value fcf gs r tg * (1 / 1000)
    · rw [if_pos hc]
      left
      rwa [mul_div_cancel_right₀ _ (by norm_num : (100:ℚ) ≠ 0)]
    · rw [if_neg hc]
      right
      have hm1 : -1 ≤ (low + high) / 2 := by linarith
      by_cases hgt : calculate_dcf_value fcf ((low + high) / 2) r tg
          > calculate_dcf_value fcf gs r tg
      · rw [if_pos hgt, searchGo_zero,
          mul_div_cancel_right₀ _ (by norm_num : (100:ℚ) ≠ 0)]
        have hgs : gs ≤ (low + high) / 2 := by
          by_contra hlt
          push_neg at hlt
          have := dcf_mono fcf r tg ((low + high) / 2) gs hf hr ht hm1 (le_of_lt hlt)
          linarith
        rw [abs_of_nonneg (by linarith), pow_one]
        linarith
      · rw [if_neg hgt, searchGo_zero,
          mul_div_cancel_right₀ _ (by norm_num : (100:ℚ) ≠ 0)]
        push_neg at hgt
        have hgs : (low + high) / 2 ≤ gs := by
          by_contra hlt
          push_neg at hlt
          have := dcf_strict_mono fcf r tg gs ((low + high) / 2) hf hr ht (by linarith) hlt
          linarith
        rw [abs_of_nonpos (by linarith), pow_one]
        linarith
  | succ n ih =>
    intro low high lm h1 h2 h3
    rw [searchGo_succ]
    by_cases hc : |calculate_dcf_value fcf ((low + high) / 2) r tg
        - calculate_dcf_value fcf gs r tg|
        < calculate_dcf_value fcf gs r tg * (1 / 1000)
    · rw [if_pos hc]
      left
      rwa [mul_div_cancel_right₀ _ (by norm_num : (100:ℚ) ≠ 0)]
    · rw [if_neg hc]
      have hm1 : -1 ≤ (low + high) / 2 := by linarith
      have hhalf : ((low + high) / 2 - low) / 2 ^ (n + 1) = (high - low) / 2 ^ (n + 1 + 1) := by
        rw [pow_succ]
        field_simp
        ring
      have hhalf2 : (high - (low + high) / 2) / 2 ^ (n + 1) = (high - low) / 2 ^ (n + 1 + 1) := by
        rw [pow_succ]
        field_simp
        ring
      by_cases hgt : calculate_dcf_value fcf ((low + high) / 2) r tg
          > calculate_dcf_value fcf gs r tg
      · rw [if_pos hgt]
        have hgs : gs ≤ (low + high) / 2 := by
          by_contra hlt
          push_neg at hlt
          have := dcf_mono fcf r tg ((low + high) / 2) gs hf hr ht hm1 (le_of_lt hlt)
          linarith
        rcases ih low ((low + high) / 2) ((low + high) / 2) h1 h2 hgs with hL | hR
        · exact Or.inl hL
        · right
          rw [hhalf] at hR
          exact hR
      · rw [if_neg hgt]
        push_neg at hgt
        have hgs : (low + high) / 2 ≤ gs := by
          by_contra hlt
          push_neg at hlt
          have := dcf_strict_mono fcf r tg gs ((low + high) / 2) hf hr ht (by linarith) hlt
          linarith
        rcases ih ((low + high) / 2) high ((low + high) / 2) hm1 hgs h3 with hL | hR
        · exact Or.inl hL
        · right
          rw [hhalf2] at hR
          exact hR

lemma midpoint_form (a : ℤ) (m : ℕ) :
    ((a : ℚ) / 2 ^ (m + 1) + ((a : ℚ) + 3) / 2 ^ (m + 1)) / 2
      = ((2 * a + 3 : ℤ) : ℚ) / 2 ^ (m + 2) := by
  push_cast
  rw [pow_succ (2:ℚ) (m + 1)]
  field_simp
  ring

lemma oddDyadic_ne_zero (a : ℤ) (m : ℕ) : ((2 * a + 3 : ℤ) : ℚ) / 2 ^ (m + 2) ≠ 0 := by
  apply div_ne_zero
  · exact_mod_cast (by omega : (2 * a + 3 : ℤ) ≠ 0)
  · positivity

/-- Every value the binary-search loop can return is `100 ×` a dyadic rational
with odd numerator (the bracket always has the shape
`[a/2^(m+1), (a+3)/2^(m+1)]`), hence is never exactly zero. -/
lemma searchGo_ne_zero (fcf r tg target : ℚ) :
    ∀ (n : ℕ) (a : ℤ) (m : ℕ) (lm : ℚ),
      searchGo fcf r tg target (n + 1)
          ((a : ℚ) / 2 ^ (m + 1)) (((a : ℚ) + 3) / 2 ^ (m + 1)) lm ≠ 0 := by
  intro n
  induction n with
  | zero =>
    intro a m lm
    rw [searchGo_succ, midpoint_form a m]
    split_ifs
    · exact mul_ne_zero (oddDyadic_ne_zero a m) (by norm_num)
    · rw [searchGo_zero]
      exact mul_ne_zero (oddDyadic_ne_zero a m) (by norm_num)
    · rw [searchGo_zero]
      exact mul_ne_zero (oddDyadic_ne_zero a m) (by norm_num)
  | succ n ih =>
    intro a m lm
    rw [searchGo_succ, midpoint_form a m]
    have hlow : (a : ℚ) / 2 ^ (m + 1) = ((2 * a : ℤ) : ℚ) / 2 ^ (m + 1 + 1) := by
      push_cast
      rw [pow_succ (2:ℚ) (m + 1)]
      field_simp
      ring
    have hmid : ((2 * a + 3 : ℤ) : ℚ) / 2 ^ (m + 2)
        = (((2 * a : ℤ) : ℚ) + 3) / 2 ^ (m + 1 + 1) := by
      push_cast
      norm_num
    have hhigh : ((a : ℚ) + 3) / 2 ^ (m + 1)
        = (((2 * a + 3 : ℤ) : ℚ) + 3) / 2 ^ (m + 1 + 1) := by
      push_cast
      rw [pow_succ (2:ℚ) (m + 1)]
      field_simp
      ring
    split_ifs
    · exact mul_ne_zero (oddDyadic_ne_zero a m) (by norm_num)
    · rw [hlow, hmid]
      exact ih (2 * a) (m + 1) _
    · rw [hhigh]
      exact ih (2 * a + 3) (m + 1) _

/-- State of the specification's description of the root-finder: the current
bracket, the last midpoint examined, the number of iterations consumed, and a
convergence flag. -/
structure BSState where
  low : ℚ
  high : ℚ
  lastMid : ℚ
  iters : ℕ
  converged : Bool
deriving DecidableEq

/-- Start of the spec's search: bracket `g ∈ [-0.50, 1.00]`, nothing examined,
no iterations, not converged. -/
def bsInit : BSState := ⟨-(1/2), 1, 0, 0, false⟩

/-- One iteration of the binary search as the specification words it: examine
the bracket midpoint, stop (set the flag) when the valuation gap is within
0.1 % of the target, otherwise shrink the bracket towards the side containing
the root of the monotone valuation. -/
def bsStep (fcf r tg target : ℚ) (st : BSState) : BSState :=
  if st.converged then st
  else if |calculate_dcf_value fcf ((st.low + st.high) / 2) r tg - target|
      < target * (1 / 1000) then
    ⟨st.low, st.high, (st.low + st.high) / 2, st.iters + 1, true⟩
  else if calculate_dcf_value fcf ((st.low + st.high) / 2) r tg > target then
    ⟨st.low, (st.low + st.high) / 2, (st.low + st.high) / 2, st.iters + 1, false⟩
  else ⟨(st.low + st.high) / 2, st.high, (st.low + st.high) / 2, st.iters + 1, false⟩

/-- The spec's search run for its full budget of 100 iterations. -/
def bsRun (fcf r tg target : ℚ) : BSState := (bsStep fcf r tg target)^[100] bsInit

/-- The implied growth the spec's search reports: the last midpoint, as a
percentage (rate × 100). -/
def specImpliedGrowth (fcf r tg target : ℚ) : ℚ := (bsRun fcf r tg target).lastMid * 100

lemma bsStep_of_converged (fcf r tg target : ℚ) (st : BSState) (h : st.converged = true) :
    bsStep fcf r tg target st = st := by
  unfold bsStep
  rw [if_pos h]

lemma searchGo_eq_bs (fcf r tg target : ℚ) :
    ∀ (n : ℕ) (st : BSState), st.converged = false →
      searchGo fcf r tg target n st.low st.high st.lastMid
        = ((bsStep fcf r tg target)^[n] st).lastMid * 100 := by
  intro n
  induction n with
  | zero =>
    intro st h
    rw [searchGo_zero, Function.iterate_zero_apply]
  | succ n ih =>
    intro st h
    rw [searchGo_succ, Function.iterate_succ_apply]
    by_cases hc : |calculate_dcf_value fcf ((st.low + st.high) / 2) r tg - target|
        < target * (1 / 1000)
    · rw [if_pos hc]
      have hstep : bsStep fcf r tg target st
          = ⟨st.low, st.high, (st.low + st.high) / 2, st.iters + 1, true⟩ := by
        unfold bsStep
        rw [if_neg (show ¬(st.converged = true) by simp [h]), if_pos hc]
      rw [hstep, Function.iterate_fixed (bsStep_of_converged fcf r tg target _ rfl)]
    · rw [if_neg hc]
      by_cases hgt : calculate_dcf_value fcf ((st.low + st.high) / 2) r tg > target
      · rw [if_pos hgt]
        have hstep : bsStep fcf r tg target st
            = ⟨st.low, (st.low + st.high) / 2, (st.low + st.high) / 2,
               st.iters + 1, false⟩ := by
          unfold bsStep
          rw [if_neg (show ¬(st.converged = true) by simp [h]), if_neg hc, if_pos hgt]
        rw [hstep]
        exact ih ⟨st.low, (st.low + st.high) / 2, (st.low + st.high) / 2,
          st.iters + 1, false⟩ rfl
      · rw [if_neg hgt]
        have hstep : bsStep fcf r tg target st
            = ⟨(st.low + st.high) / 2, st.high, (st.low + st.high) / 2,
               st.iters + 1, false⟩ := by
          unfold bsStep
          rw [if_neg (show ¬(st.converged = true) by simp [h]), if_neg hc, if_neg hgt]
        rw [hstep]
        exact ih ⟨(st.low + st.high) / 2, st.high, (st.low + st.high) / 2,
          st.iters + 1, false⟩ rfl

/-- A state is well-flagged when its convergence flag is set exactly if the
valuation gap at its last examined midpoint met the tolerance. -/
def bsGood (fcf r tg target : ℚ) (st : BSState) : Prop :=
  (st.converged = true →
    |calculate_dcf_value fcf st.lastMid r tg - target| < target * (1 / 1000))
  ∧ (st.converged = false →
    ¬ |calculate_dcf_value fcf st.lastMid r tg - target| < target * (1 / 1000))

lemma bsStep_good (fcf r tg target : ℚ) (st : BSState)
    (h : st.converged = false ∨ bsGood fcf r tg target st) :
    bsGood fcf r tg target (bsStep fcf r tg target st) := by
  by_cases hcv : st.converged = true
  · rw [bsStep_of_converged fcf r tg target st hcv]
    rcases h with h | h
    · rw [hcv] at h
      exact absurd h (by simp)
    · exact h
  · have hf : st.converged = false := by
      simpa using hcv
    by_cases h1 : |calculate_dcf_value fcf ((st.low + st.high) / 2) r tg - target|
        < target * (1 / 1000)
    · have hstep : bsStep fcf r tg target st
          = ⟨st.low, st.high, (st.low + st.high) / 2, st.iters + 1, true⟩ := by
        unfold bsStep
        rw [if_neg (show ¬(st.converged = true) by simp [hf]), if_pos h1]
      rw [hstep]
      exact ⟨fun _ => h1, fun hh => by simp at hh⟩
    · by_cases h2 : calculate_dcf_value fcf ((st.low + st.high) / 2) r tg > target
      · have hstep : bsStep fcf r tg target st
            = ⟨st.low, (st.low + st.high) / 2, (st.low + st.high) / 2,
               st.iters + 1, false⟩ := by
          unfold bsStep
          rw [if_neg (show ¬(st.converged = true) by simp [hf]), if_neg h1, if_pos h2]
        rw [hstep]
        exact ⟨fun hh => by simp at hh, fun _ => h1⟩
      · have hstep : bsStep fcf r tg target st
            = ⟨(st.low + st.high) / 2, st.high, (st.low + st.high) / 2,
               st.iters + 1, false⟩ := by
          unfold bsStep
          rw [if_neg (show ¬(st.converged = true) by simp [hf]), if_neg h1, if_neg h2]
        rw [hstep]
        exact ⟨fun hh => by simp at hh, fun _ => h1⟩

lemma bsGood_iterate (fcf r tg target : ℚ) (n : ℕ) (st : BSState)
    (h : bsGood fcf r tg target st) :
    bsGood fcf r tg target ((bsStep fcf r tg target)^[n] st) := by
  induction n with
  | zero => simpa
  | succ n ih =>
    rw [Function.iterate_succ_apply']
    exact bsStep_good fcf r tg target _ (Or.inr ih)

lemma bsRun_good (fcf r tg target : ℚ) : bsGood fcf r tg target (bsRun fcf r tg target) := by
  unfold bsRun
  rw [show (100:ℕ) = 99 + 1 from rfl, Function.iterate_succ_apply]
  exact bsGood_iterate fcf r tg target 99 _ (bsStep_good fcf r tg target bsInit (Or.inl rfl))

lemma bsStep_iters (fcf r tg target : ℚ) (st : BSState) :
    (bsStep fcf r tg target st).iters ≤ st.iters + 1 := by
  simp only [bsStep]
  split_ifs <;> simp

lemma iterate_iters_le (fcf r tg target : ℚ) (n : ℕ) (st : BSState) :
    ((bsStep fcf r tg target)^[n] st).iters ≤ st.iters + n := by
  induction n with
  | zero => simp
  | succ n ih =>
    rw [Function.iterate_succ_apply']
    have h1 := bsStep_iters fcf r tg target ((bsStep fcf r tg target)^[n] st)
    omega

lemma bsRun_iters_le (fcf r tg target : ℚ) : (bsRun fcf r tg target).iters ≤ 100 := by
  have h := iterate_iters_le fcf r tg target 100 bsInit
  have hz : bsInit.iters = 0 := rfl
  unfold bsRun
  omega

/-- IEEE-754-style extended value for the pandas float pipeline: exact finite
rationals plus the special values +inf, −inf and NaN (rounding abstracted). -/
inductive PF where
  | num : ℚ → PF
  | pinf : PF
  | ninf : PF
  | nan : PF
deriving DecidableEq

/-- IEEE addition on the modelled floats. -/
def PF.add : PF → PF → PF
  | .nan, _ => .nan
  | _, .nan => .nan
  | .num a, .num b => .num (a + b)
  | .num _, .pinf => .pinf
  | .num _, .ninf => .ninf
  | .pinf, .num _ => .pinf
  | .ninf, .num _ => .ninf
  | .pinf, .pinf => .pinf
  | .ninf, .ninf => .ninf
  | .pinf, .ninf => .nan
  | .ninf, .pinf => .nan

/-- IEEE subtraction on the modelled floats. -/
def PF.sub : PF → PF → PF
  | .nan, _ => .nan
  | _, .nan => .nan
  | .num a, .num b => .num (a - b)
  | .num _, .pinf => .ninf
  | .num _, .ninf => .pinf
  | .pinf, .num _ => .pinf
  | .ninf, .num _ => .ninf
  | .pinf, .pinf => .nan
  | .ninf, .ninf => .nan
  | .pinf, .ninf => .pinf
  | .ninf, .pinf => .ninf

/-- IEEE division on the modelled floats: a positive finite value over zero
gives +inf, `0/0` gives NaN — exactly what pandas produces for `gain/loss`. -/
def PF.div : PF → PF → PF
  | .nan, _ => .nan
  | _, .nan => .nan
  | .num a, .num b =>
    if b = 0 then (if a = 0 then .nan else if 0 < a then .pinf else .ninf)
    else .num (a / b)
  | .num _, .pinf => .num 0
  | .num _, .ninf => .num 0
  | .pinf, .num b => if 0 ≤ b then .pinf else .ninf
  | .ninf, .num b => if 0 ≤ b then .ninf else .pinf
  | .pinf, .pinf => .nan
  | .pinf, .ninf => .nan
  | .ninf, .pinf => .nan
  | .ninf, .ninf => .nan

/-- `hist['Close'].diff()` without its leading NaN (finance_engine.py line 86):
entry `j` is `close[j+1] - close[j]`, i.e. the delta at pandas index `j+1`. -/
def priceDeltas (closes : List ℚ) : List ℚ :=
  List.zipWith (fun a b => a - b) closes.tail closes

/-- `delta.where(delta > 0, 0)` (finance_engine.py line 87). -/
def gainsList (closes : List ℚ) : List ℚ :=
  (priceDeltas closes).map fun d => if 0 < d then d else 0

/-- `(-delta.where(delta < 0, 0))` (finance_engine.py line 88). -/
def lossesList (closes : List ℚ) : List ℚ :=
  (priceDeltas closes).map fun d => if d < 0 then -d else 0

/-- The mean of the 14-delta window ending at pandas index `i ≥ 14`
(deltas at indices `i-13 … i` are list positions `i-14 … i-1`). -/
def meanGain (closes : List ℚ) (i : ℕ) : ℚ :=
  (((gainsList closes).drop (i - 14)).take 14).sum / 14

/-- The mean loss over the same window. -/
def meanLoss (closes : List ℚ) (i : ℕ) : ℚ :=
  (((lossesList closes).drop (i - 14)).take 14).sum / 14

/-- `RSI = 100 - 100 / (1 + RS)` with `RS = gain / loss`
(finance_engine.py lines 89-90), evaluated in float semantics. -/
def rsiAt (closes : List ℚ) (i : ℕ) : PF :=
  PF.sub (.num 100)
    (PF.div (.num 100)
      (PF.add (.num 1)
        (PF.div (.num (meanGain closes i)) (.num (meanLoss closes i)))))

lemma gainsList_nonneg (closes : List ℚ) : ∀ x ∈ gainsList closes, 0 ≤ x := by
  intro x hx
  unfold gainsList at hx
  obtain ⟨d, _, rfl⟩ := List.mem_map.mp hx
  split_ifs with h
  · exact le_of_lt h
  · exact le_refl 0

lemma meanGain_nonneg (closes : List ℚ) (i : ℕ) : 0 ≤ meanGain closes i := by
  unfold meanGain
  apply div_nonneg _ (by norm_num)
  apply List.sum_nonneg
  intro x hx
  exact gainsList_nonneg closes x (List.mem_of_mem_drop (List.mem_of_mem_take hx))

/-- When the rolling loss is zero but some gain is present, the float pipeline
produces `RS = +inf` and hence `RSI = 100 - 100/(1 + inf) = 100` exactly. -/
lemma rsi_zero_loss_pos_gain (closes : List ℚ) (i : ℕ)
    (hl : meanLoss closes i = 0) (hg : meanGain closes i ≠ 0) :
    rsiAt closes i = .num 100 := by
  have hpos : 0 < meanGain closes i :=
    lt_of_le_of_ne (meanGain_nonneg closes i) (Ne.symm hg)
  unfold rsiAt
  rw [hl]
  simp [PF.div, PF.add, PF.sub, hg, hpos]

/-- `FinanceEngine.get_historical_growth` (finance_engine.py lines 177-201),
taking the revenue series already in ascending date order (the effect of the
source's `revenues.sort_index()`), with `none` modelling the NaN returns.
`years <= 0` for the Python int `years = len(revenues) - 1` is `length - 1 = 0`
here; the float `** (1 / years)` is modelled by real exponentiation. -/
noncomputable def get_historical_growth (revenues : List ℚ) : Option ℝ :=
  if revenues.length < 2 then none
  else if revenues.head! ≤ 0 ∨ revenues.length - 1 = 0 then none
  else some ((((revenues.getLast! / revenues.head! : ℚ) : ℝ)
      ^ ((1 : ℝ) / ((revenues.length - 1 : ℕ) : ℝ)) - 1) * 100)

/-- The fields of the `fe.get_stock_data` record that the Competitor Matrix tab
reads (`app.py` lines 230-251); `none` models `np.nan`. -/
structure StockData where
  symbol : String
  revenueGrowth : Option ℚ
  evToEbitda : Option ℚ
  profitMargins : Option ℚ
deriving DecidableEq

/-- `data.get('revenueGrowth', 0) * 100 if data.get('revenueGrowth') else 0`:
NaN is truthy in Python, so a NaN growth propagates as NaN (`none`); a present
zero is falsy and yields the literal 0; otherwise the fraction is scaled to a
percentage. -/
def growthPct (g : Option ℚ) : Option ℚ :=
  match g with
  | none => none
  | some q => if q = 0 then some 0 else some (q * 100)

/-- One row of the `comp_data` table the Competitor Matrix tab builds. -/
structure CompRow where
  ticker : String
  revGrowth : Option ℚ
  evEbitda : Option ℚ
  netMargin : Option ℚ
  rowType : String
deriving DecidableEq

/-- The row `app.py` appends for the target stock (lines 232-238). -/
def targetRow (d : StockData) : CompRow :=
  ⟨d.symbol, growthPct d.revenueGrowth, d.evToEbitda, d.profitMargins, "Target"⟩

/-- The row `app.py` appends for a successfully fetched competitor. -/
def peerRow (d : StockData) : CompRow :=
  ⟨d.symbol, growthPct d.revenueGrowth, d.evToEbitda, d.profitMargins, "Peer"⟩

/-- The `comp_data` list of the Competitor Matrix tab: the target's row is
appended first, unconditionally, then one row per peer whose fetch succeeded
(`if c_data:`); a failed fetch (`None`) is skipped. -/
def comp_data (target : StockData) (peerFetches : List (Option StockData)) :
    List CompRow :=
  targetRow target :: peerFetches.filterMap (fun c => c.map peerRow)

/-- C5: for every fcf, growth g, discount rate r and terminal growth tg, the
forward valuation equals the reference definition: fcf compounded at g for
exactly 10 periods (`fcf_t = fcf_{t-1} * (1+g)`), each period's flow discounted
at r and the 10 discounted flows summed, plus a terminal value
`fcf₁₀ * (1+tg) / (r-tg)` discounted back 10 periods. -/
theorem C5_forward_valuation_matches_reference (fcf g r tg : ℚ) :
    calculate_dcf_value fcf g r tg = specDcfValue fcf g r tg :=
  dcfValue_eq_spec fcf g r tg

/-- C3 counterexample: with fcf = 1 > 0 and discountRate > terminalGrowthRate
the valuation is not strictly increasing in g as claimed: for r = 1/10,
tg = 1/20 it decreases from g = −2 to g = −1, and for r = −2, tg = −3 it
decreases from g = 0 to g = 1 even inside the solver's search range. -/
theorem C3_counterexample :
    (1/20 : ℚ) < 1/10 ∧ (-2 : ℚ) < -1
      ∧ ¬ calculate_dcf_value 1 (-2) (1/10) (1/20)
          < calculate_dcf_value 1 (-1) (1/10) (1/20)
      ∧ (-3 : ℚ) < -2 ∧ (0 : ℚ) < 1
      ∧ ¬ calculate_dcf_value 1 0 (-2) (-3) < calculate_dcf_value 1 1 (-2) (-3) := by
  refine ⟨by norm_num, by norm_num, ?_, by norm_num, by norm_num, ?_⟩
  · norm_num [calculate_dcf_value, dcfProject]
  · norm_num [calculate_dcf_value, dcfProject]

/-- C3 (amended): the forward valuation is strictly increasing in the growth
rate for fcf > 0 and discountRate > terminalGrowthRate provided additionally
1 + discountRate > 0 and the growth rates are ≥ −1 (both restrictions are
forced by the counterexample; they hold on the solver's search range
[−0.5, 1] for every discount rate above −100 %). -/
theorem C3_dcf_value_strictly_increasing (fcf r tg g₁ g₂ : ℚ) (hf : 0 < fcf)
    (ht : tg < r) (hr : -1 < r) (hg₁ : -1 ≤ g₁) (h12 : g₁ < g₂) :
    calculate_dcf_value fcf g₁ r tg < calculate_dcf_value fcf g₂ r tg :=
  dcf_strict_mono fcf r tg g₁ g₂ hf hr ht hg₁ h12

/-- C3 witness: the amended monotonicity applied at fcf = 1, r = 1/10,
tg = 1/20, g₁ = 0 < g₂ = 1. -/
theorem C3_dcf_value_strictly_increasing_witness :
    (0 : ℚ) < 1 ∧ (1/20 : ℚ) < 1/10 ∧ (-1 : ℚ) < 1/10 ∧ (-1 : ℚ) ≤ 0 ∧ (0 : ℚ) < 1
      ∧ calculate_dcf_value 1 0 (1/10) (1/20) < calculate_dcf_value 1 1 (1/10) (1/20) :=
  ⟨by norm_num, by norm_num, by norm_num, by norm_num, by norm_num,
    C3_dcf_value_strictly_increasing 1 (1/10) (1/20) 0 1 (by norm_num) (by norm_num)
      (by norm_num) (by norm_num) (by norm_num)⟩

/-- C9: for every target fundamentals record and every peer fetch outcome list
(including the empty one) the Competitor Matrix table contains the target's
record — indeed as its head — so downstream peer comparison degrades to
"no peers found" instead of erroring. -/
theorem C9_target_always_present (target : StockData)
    (peerFetches : List (Option StockData)) :
    targetRow target ∈ comp_data target peerFetches
      ∧ (comp_data target peerFetches).head? = some (targetRow target)
      ∧ comp_data target peerFetches ≠ [] := by
  unfold comp_data
  exact ⟨List.mem_cons_self _ _, rfl, by simp⟩

/-- C10: the solver's missing-input guard conflates a value of exactly 0 with
absence: a present-but-zero currentPrice, freeCashFlow or sharesOutstanding
yields the same NaN "cannot compute" outcome as a missing (NaN) input, and the
search loop is never entered. -/
theorem C10_zero_treated_as_missing (p f s : Option ℚ) (r tg : ℚ)
    (h : p = some 0 ∨ f = some 0 ∨ s = some 0) :
    calculate_reverse_dcf p f r tg s = .nan
      ∧ calculate_reverse_dcf none none r tg none = .nan := by
  constructor
  · apply (reverse_dcf_nan_iff p f s r tg).mpr
    rcases h with h | h | h
    · exact Or.inr (Or.inr (Or.inr (Or.inl h)))
    · exact Or.inr (Or.inr (Or.inr (Or.inr (Or.inr ⟨0, h, le_refl 0⟩))))
    · exact Or.inr (Or.inr (Or.inr (Or.inr (Or.inl h))))
  · exact (reverse_dcf_nan_iff none none none r tg).mpr (Or.inl rfl)

/-- C10 witness: a present-but-zero current price with otherwise valid inputs
gives the same NaN outcome as fully missing inputs. -/
theorem C10_zero_treated_as_missing_witness :
    (some (0:ℚ) = some 0 ∨ some (1000:ℚ) = some 0 ∨ some (10:ℚ) = some 0)
      ∧ calculate_reverse_dcf (some 0) (some 1000) (1/10) (1/40) (some 10) = .nan
      ∧ calculate_reverse_dcf none none (1/10) (1/40) none = .nan :=
  ⟨Or.inl rfl,
    C10_zero_treated_as_missing (some 0) (some 1000) (some 10) (1/10) (1/40) (Or.inl rfl)⟩

/-- On inputs passing the NaN guard but with a zero denominator ahead, the
solver reaches the loop and the `ZeroDivisionError` outcome. -/
lemma reverse_dcf_exn_eq (p f s r tg : ℚ) (hp : p ≠ 0) (hs : s ≠ 0) (hf : 0 < f)
    (hc : r - tg = 0 ∨ 1 + r = 0) :
    calculate_reverse_dcf (some p) (some f) r tg (some s) = .exn := by
  have hmatch : calculate_reverse_dcf (some p) (some f) r tg (some s)
      = (if p = 0 ∨ f = 0 ∨ s = 0 ∨ f ≤ 0 then DCFOutcome.nan
         else if r - tg = 0 ∨ 1 + r = 0 then DCFOutcome.exn
         else DCFOutcome.val (searchGo f r tg (p * s) 100 (-(1/2)) 1 0)) := rfl
  rw [hmatch, if_neg, if_pos hc]
  push_neg
  exact ⟨hp, ne_of_gt hf, hs, hf⟩

/-- C1 counterexample: at discountRate = terminalGrowthRate = 1/20 with valid
price, FCF and shares the solver does not produce its "cannot compute" signal:
it proceeds into the loop and performs the division by (r − tg) = 0, i.e. an
uncaught `ZeroDivisionError` (`exn`), not the NaN signal.  Conversely, with
currentPrice = 0 the NaN signal fires although neither discountRate ≤
terminalGrowthRate nor freeCashFlow ≤ 0 holds, refuting "precisely". -/
theorem C1_counterexample :
    calculate_reverse_dcf (some 100) (some 1000) (1/20) (1/20) (some 10) = .exn
      ∧ calculate_reverse_dcf (some 100) (some 1000) (1/20) (1/20) (some 10) ≠ .nan
      ∧ calculate_reverse_dcf (some 0) (some 1000) (1/10) (1/40) (some 10) = .nan
      ∧ ¬ ((1/10 : ℚ) ≤ 1/40) ∧ ¬ ((1000 : ℚ) ≤ 0) := by
  have hexn : calculate_reverse_dcf (some 100) (some 1000) (1/20) (1/20) (some 10)
      = .exn :=
    reverse_dcf_exn_eq 100 1000 10 (1/20) (1/20) (by norm_num) (by norm_num)
      (by norm_num) (Or.inl (by norm_num))
  refine ⟨hexn, ?_, ?_, by norm_num, by norm_num⟩
  · rw [hexn]
    simp
  · exact (reverse_dcf_nan_iff (some 0) (some 1000) (some 10) (1/10) (1/40)).mpr
      (Or.inr (Or.inr (Or.inr (Or.inl rfl))))

/-- C1 (amended): the solver short-circuits with its NaN sentinel exactly when
currentPrice, freeCashFlow or sharesOutstanding is missing/NaN, present but
zero, or freeCashFlow ≤ 0; there is no guard at all on discountRate ≤
terminalGrowthRate — with such rates and otherwise valid inputs it enters the
loop and the division by (r − tg) raises an uncaught ZeroDivisionError at
exact equality. -/
theorem C1_invalid_assumption_guard_amended :
    (∀ (p f s : Option ℚ) (r tg : ℚ),
      calculate_reverse_dcf p f r tg s = .nan ↔ invalidInputs p f s)
    ∧ (∀ (r tg pq fq sq : ℚ), pq ≠ 0 → sq ≠ 0 → 0 < fq → r = tg →
        calculate_reverse_dcf (some pq) (some fq) r tg (some sq) = .exn) := by
  constructor
  · exact fun p f s r tg => reverse_dcf_nan_iff p f s r tg
  · intro r tg pq fq sq hp hs hf hrtg
    exact reverse_dcf_exn_eq pq fq sq r tg hp hs hf (Or.inl (sub_eq_zero_of_eq hrtg))

/-- C1 witness: at discountRate = terminalGrowthRate = 1/10 the solver raises
rather than signalling. -/
theorem C1_invalid_assumption_guard_amended_witness :
    (100 : ℚ) ≠ 0 ∧ (10 : ℚ) ≠ 0 ∧ (0 : ℚ) < 1000 ∧ (1/10 : ℚ) = 1/10
      ∧ calculate_reverse_dcf (some 100) (some 1000) (1/10) (1/10) (some 10) = .exn :=
  ⟨by norm_num, by norm_num, by norm_num, rfl,
    C1_invalid_assumption_guard_amended.2 (1/10) (1/10) 100 1000 10 (by norm_num)
      (by norm_num) (by norm_num) rfl⟩

/-- C4 counterexample: the solver's failure output cannot distinguish causes:
a missing-like zero current price, an invalid negative free cash flow, and a
genuinely missing price all produce the identical bare NaN value — not a
structured result carrying a status, an iteration count or a convergence
flag. -/
theorem C4_counterexample :
    calculate_reverse_dcf (some 0) (some 1000) (1/10) (1/40) (some 10)
        = calculate_reverse_dcf (some 100) (some (-50)) (1/10) (1/40) (some 10)
      ∧ calculate_reverse_dcf none (some 1000) (1/10) (1/40) (some 10)
        = calculate_reverse_dcf (some 0) (some 1000) (1/10) (1/40) (some 10) := by
  have h1 := (reverse_dcf_nan_iff (some 0) (some 1000) (some 10) (1/10) (1/40)).mpr
    (Or.inr (Or.inr (Or.inr (Or.inl rfl))))
  have h2 := (reverse_dcf_nan_iff (some 100) (some (-50)) (some 10) (1/10) (1/40)).mpr
    (Or.inr (Or.inr (Or.inr (Or.inr (Or.inr ⟨-50, rfl, by norm_num⟩)))))
  have h3 := (reverse_dcf_nan_iff none (some 1000) (some 10) (1/10) (1/40)).mpr
    (Or.inl rfl)
  exact ⟨h1.trans h2.symm, h3.trans h1.symm⟩

/-- C4 (amended): the solver's output is not a structured result: every
precondition failure — missing input, present-but-zero input, non-positive
free cash flow — yields the same bare NaN sentinel whatever the cause and
whatever the rate assumptions, with no iteration count or convergence flag
attached. -/
theorem C4_bare_nan_sentinel (r tg r' tg' : ℚ) (p f s p' f' s' : Option ℚ)
    (h : invalidInputs p f s) (h' : invalidInputs p' f' s') :
    calculate_reverse_dcf p f r tg s = calculate_reverse_dcf p' f' r' tg' s' := by
  rw [(reverse_dcf_nan_iff p f s r tg).mpr h,
    (reverse_dcf_nan_iff p' f' s' r' tg').mpr h']

/-- C4 witness: two distinct failure causes, two distinct rate settings, one
identical output. -/
theorem C4_bare_nan_sentinel_witness :
    invalidInputs (some 0) (some 1000) (some 10)
      ∧ invalidInputs (some 100) (some (-50)) (some 10)
      ∧ calculate_reverse_dcf (some 0) (some 1000) (1/10) (1/40) (some 10)
          = calculate_reverse_dcf (some 100) (some (-50)) (1/20) (1/30) (some 10) :=
  ⟨Or.inr (Or.inr (Or.inr (Or.inl rfl))),
   Or.inr (Or.inr (Or.inr (Or.inr (Or.inr ⟨-50, rfl, by norm_num⟩)))),
   C4_bare_nan_sentinel (1/10) (1/40) (1/20) (1/30) (some 0) (some 1000) (some 10)
     (some 100) (some (-50)) (some 10)
     (Or.inr (Or.inr (Or.inr (Or.inl rfl))))
     (Or.inr (Or.inr (Or.inr (Or.inr (Or.inr ⟨-50, rfl, by norm_num⟩)))))⟩

/-- C6: the root-finding procedure is exactly the specification's binary search
over g ∈ [−0.50, 1.00] for at most 100 iterations: the source loop equals
running the spec's search state machine for the 100-iteration budget and
reporting the last midpoint × 100 (a percentage); the iterations consumed never
exceed 100; the convergence flag is set precisely when the valuation gap at
the reported midpoint is within 0.1 % of targetValue (early stop exactly on
tolerance; the last midpoint is returned, not an error, when the budget runs
out); and on valid inputs the solver runs this search against
targetValue = currentPrice × sharesOutstanding. -/
theorem C6_binary_search_refinement :
    (∀ fcf r tg target : ℚ,
      searchGo fcf r tg target 100 (-(1/2)) 1 0 = specImpliedGrowth fcf r tg target)
    ∧ (∀ fcf r tg target : ℚ, (bsRun fcf r tg target).iters ≤ 100)
    ∧ (∀ fcf r tg target : ℚ, (bsRun fcf r tg target).converged = true →
        |calculate_dcf_value fcf (bsRun fcf r tg target).lastMid r tg - target|
          < target * (1/1000))
    ∧ (∀ fcf r tg target : ℚ, (bsRun fcf r tg target).converged = false →
        ¬ |calculate_dcf_value fcf (bsRun fcf r tg target).lastMid r tg - target|
          < target * (1/1000))
    ∧ (∀ p f s r tg : ℚ, p ≠ 0 → s ≠ 0 → 0 < f → r - tg ≠ 0 → 1 + r ≠ 0 →
        calculate_reverse_dcf (some p) (some f) r tg (some s)
          = .val (specImpliedGrowth f r tg (p * s))) := by
  have hmain : ∀ fcf r tg target : ℚ,
      searchGo fcf r tg target 100 (-(1/2)) 1 0 = specImpliedGrowth fcf r tg target := by
    intro fcf r tg target
    exact searchGo_eq_bs fcf r tg target 100 bsInit rfl
  refine ⟨hmain, fun fcf r tg target => bsRun_iters_le fcf r tg target,
    fun fcf r tg target => (bsRun_good fcf r tg target).1,
    fun fcf r tg target => (bsRun_good fcf r tg target).2, ?_⟩
  intro p f s r tg hp hs hf hrtg hr
  rw [reverse_dcf_val_eq p f s r tg hp hs hf hrtg hr, hmain f r tg (p * s)]

/-- C6 witness: the refinement applied at price 100, FCF 1000, shares 10,
r = 1/10, tg = 1/40. -/
theorem C6_binary_search_refinement_witness :
    (100 : ℚ) ≠ 0 ∧ (10 : ℚ) ≠ 0 ∧ (0 : ℚ) < 1000 ∧ (1/10 : ℚ) - 1/40 ≠ 0
      ∧ (1 : ℚ) + 1/10 ≠ 0
      ∧ calculate_reverse_dcf (some 100) (some 1000) (1/10) (1/40) (some 10)
          = .val (specImpliedGrowth 1000 (1/10) (1/40) (100 * 10)) :=
  ⟨by norm_num, by norm_num, by norm_num, by norm_num, by norm_num,
    C6_binary_search_refinement.2.2.2.2 100 1000 10 (1/10) (1/40) (by norm_num)
      (by norm_num) (by norm_num) (by norm_num) (by norm_num)⟩

/-- The round-trip property claimed by the specification, at given inputs:
running the solver on currentPrice = dcfValue(gs)/shares recovers the chosen
growth rate gs (the solver's output is a percentage, so the recovered rate is
output/100) within 0.1 % relative tolerance. -/
def roundTripRecovers (fcf r tg shares gs : ℚ) : Prop :=
  ∃ v, calculate_reverse_dcf (some (calculate_dcf_value fcf gs r tg / shares))
        (some fcf) r tg (some shares) = .val v
    ∧ |v / 100 - gs| ≤ |gs| * (1/1000)

/-- C2 counterexample: at fcf = 1000, r = 1/10, tg = 1/40, shares = 1 and
target growth g* = 0 — inside the search range, all validity conditions met —
the solver cannot recover g* within the stated relative tolerance: a 0.1 %
relative neighbourhood of 0 is {0}, but the loop only ever returns 100 × a
dyadic rational with odd numerator, never exactly 0. -/
theorem C2_counterexample : ¬ roundTripRecovers 1000 (1/10) (1/40) 1 0 := by
  rintro ⟨v, hv, htol⟩
  have hpos : 0 < calculate_dcf_value 1000 0 (1/10) (1/40) :=
    dcf_pos 1000 0 (1/10) (1/40) (by norm_num) (by norm_num) (by norm_num) (by norm_num)
  have hval := reverse_dcf_val_eq (calculate_dcf_value 1000 0 (1/10) (1/40) / 1)
    1000 1 (1/10) (1/40) (div_ne_zero (ne_of_gt hpos) one_ne_zero) one_ne_zero
    (by norm_num) (by norm_num) (by norm_num)
  rw [hval] at hv
  have hveq : searchGo 1000 (1/10) (1/40)
      (calculate_dcf_value 1000 0 (1/10) (1/40) / 1 * 1) 100 (-(1/2)) 1 0 = v := by
    injection hv
  have hz : v = 0 := by
    have h0 : |v / 100| ≤ 0 := by simpa using htol
    have h1 : v / 100 = 0 := abs_eq_zero.mp (le_antisymm h0 (abs_nonneg _))
    have h2 : v = 0 ∨ (100 : ℚ) = 0 := div_eq_zero_iff.mp h1
    rcases h2 with h2 | h2
    · exact h2
    · exact absurd h2 (by norm_num)
  have h99 := searchGo_ne_zero 1000 (1/10) (1/40)
    (calculate_dcf_value 1000 0 (1/10) (1/40) / 1 * 1) 99 (-1) 0 0
  have e1 : ((-1 : ℤ) : ℚ) / 2 ^ (0 + 1) = -(1/2) := by norm_num
  have e2 : (((-1 : ℤ) : ℚ) + 3) / 2 ^ (0 + 1) = 1 := by norm_num
  rw [e1, e2] at h99
  rw [hveq, hz] at h99
  exact h99 rfl

/-- C2 (amended): on every valid input (fcf > 0, shares > 0, tg < r, r > −1)
and every g* in the search range [−0.5, 1], the solver run on the forward price
dcfValue(g*)/shares returns a value v such that either the forward valuation at
the recovered rate v/100 is within the 0.1 % value tolerance of the target
valuation, or — when the tolerance never fires — the recovered rate is within
3/2¹⁰¹ of g*.  Growth-space recovery within 0.1 % relative tolerance of g*
itself, as originally claimed, fails near g* = 0 (see the counterexample). -/
theorem C2_round_trip_amended (fcf r tg shares gs : ℚ) (hf : 0 < fcf)
    (ht : tg < r) (hr : -1 < r) (hs : 0 < shares)
    (hgl : -(1/2) ≤ gs) (hgh : gs ≤ 1) :
    ∃ v, calculate_reverse_dcf (some (calculate_dcf_value fcf gs r tg / shares))
          (some fcf) r tg (some shares) = .val v
      ∧ (|calculate_dcf_value fcf (v / 100) r tg - calculate_dcf_value fcf gs r tg|
           < calculate_dcf_value fcf gs r tg * (1/1000)
         ∨ |v / 100 - gs| ≤ 3 / 2 ^ 101) := by
  have hr0 : (1 : ℚ) + r ≠ 0 := ne_of_gt (by linarith)
  have hrtg : r - tg ≠ 0 := ne_of_gt (by linarith)
  have hpos : 0 < calculate_dcf_value fcf gs r tg :=
    dcf_pos fcf gs r tg hf hr ht (by linarith)
  have hp : calculate_dcf_value fcf gs r tg / shares ≠ 0 :=
    div_ne_zero (ne_of_gt hpos) (ne_of_gt hs)
  have hval := reverse_dcf_val_eq (calculate_dcf_value fcf gs r tg / shares) fcf
    shares r tg hp (ne_of_gt hs) hf hrtg hr0
  have htarget : calculate_dcf_value fcf gs r tg / shares * shares
      = calculate_dcf_value fcf gs r tg := div_mul_cancel₀ _ (ne_of_gt hs)
  rw [htarget] at hval
  refine ⟨searchGo fcf r tg (calculate_dcf_value fcf gs r tg) 100 (-(1/2)) 1 0,
    hval, ?_⟩
  have happrox := searchGo_approx fcf r tg gs hf hr ht 99 (-(1/2)) 1 0
    (by norm_num) hgl hgh
  rcases happrox with hL | hR
  · exact Or.inl hL
  · right
    have heq : ((1 : ℚ) - -(1/2)) / 2 ^ (99 + 1) = 3 / 2 ^ 101 := by
      rw [show ((1 : ℚ) - -(1/2)) = 3 / 2 from by norm_num, div_div,
        show ((2 : ℚ) * 2 ^ (99 + 1)) = 2 ^ 101 from by ring]
    rw [heq] at hR
    exact hR

/-- C2 witness: the amended round trip at fcf = 1000, r = 1/10, tg = 1/40,
shares = 2, g* = 1/2. -/
theorem C2_round_trip_amended_witness :
    (0 : ℚ) < 1000 ∧ (1/40 : ℚ) < 1/10 ∧ (-1 : ℚ) < 1/10 ∧ (0 : ℚ) < 2
      ∧ (-(1/2) : ℚ) ≤ 1/2 ∧ (1/2 : ℚ) ≤ 1
      ∧ ∃ v, calculate_reverse_dcf
            (some (calculate_dcf_value 1000 (1/2) (1/10) (1/40) / 2))
            (some 1000) (1/10) (1/40) (some 2) = .val v
          ∧ (|calculate_dcf_value 1000 (v / 100) (1/10) (1/40)
                - calculate_dcf_value 1000 (1/2) (1/10) (1/40)|
               < calculate_dcf_value 1000 (1/2) (1/10) (1/40) * (1/1000)
             ∨ |v / 100 - 1/2| ≤ 3 / 2 ^ 101) :=
  ⟨by norm_num, by norm_num, by norm_num, by norm_num, by norm_num, by norm_num,
    C2_round_trip_amended 1000 (1/10) (1/40) 2 (1/2) (by norm_num) (by norm_num)
      (by norm_num) (by norm_num) (by norm_num) (by norm_num)⟩

/-- C7 counterexample: on a flat price history (15 equal closes) every delta is
non-negative and the 14-period mean loss is 0, yet RSI-14 at the first defined
index is NaN (pandas computes RS = 0/0 = NaN), not 100: the zero-loss case is
only mapped to 100 when some gain is present. -/
theorem C7_counterexample :
    meanLoss [100,100,100,100,100,100,100,100,100,100,100,100,100,100,100] 14 = 0
      ∧ rsiAt [100,100,100,100,100,100,100,100,100,100,100,100,100,100,100] 14 = PF.nan
      ∧ rsiAt [100,100,100,100,100,100,100,100,100,100,100,100,100,100,100] 14
          ≠ PF.num 100 := by
  have hl : meanLoss [100,100,100,100,100,100,100,100,100,100,100,100,100,100,100] 14
      = 0 := by
    norm_num [meanLoss, lossesList, priceDeltas]
  have hg : meanGain [100,100,100,100,100,100,100,100,100,100,100,100,100,100,100] 14
      = 0 := by
    norm_num [meanGain, gainsList, priceDeltas]
  have hnan : rsiAt [100,100,100,100,100,100,100,100,100,100,100,100,100,100,100] 14
      = PF.nan := by
    unfold rsiAt
    rw [hl, hg]
    simp [PF.div, PF.add, PF.sub]
  exact ⟨hl, hnan, by rw [hnan]; simp⟩

/-- C7 (amended): wherever RSI-14 is defined, if the 14-period mean loss is 0
and the 14-period mean gain is nonzero (some delta in the window is positive),
the float pipeline yields RSI exactly 100 with no error; when additionally the
mean gain is 0 (a flat window) the result is NaN, not 100. -/
theorem C7_rsi_zero_loss (closes : List ℚ) (i : ℕ) (_h14 : 14 ≤ i)
    (_hlen : i < closes.length) (hl : meanLoss closes i = 0)
    (hg : meanGain closes i ≠ 0) : rsiAt closes i = .num 100 :=
  rsi_zero_loss_pos_gain closes i hl hg

/-- C7 witness: a strictly rising 15-close history has zero mean loss, positive
mean gain, and RSI-14 exactly 100 at index 14. -/
theorem C7_rsi_zero_loss_witness :
    14 ≤ 14 ∧ 14 < ([1,2,3,4,5,6,7,8,9,10,11,12,13,14,15] : List ℚ).length
      ∧ meanLoss [1,2,3,4,5,6,7,8,9,10,11,12,13,14,15] 14 = 0
      ∧ meanGain [1,2,3,4,5,6,7,8,9,10,11,12,13,14,15] 14 ≠ 0
      ∧ rsiAt [1,2,3,4,5,6,7,8,9,10,11,12,13,14,15] 14 = .num 100 := by
  have hl : meanLoss [1,2,3,4,5,6,7,8,9,10,11,12,13,14,15] 14 = 0 := by
    norm_num [meanLoss, lossesList, priceDeltas]
  have hg : meanGain [1,2,3,4,5,6,7,8,9,10,11,12,13,14,15] 14 = 1 := by
    norm_num [meanGain, gainsList, priceDeltas]
  have hg0 : meanGain [1,2,3,4,5,6,7,8,9,10,11,12,13,14,15] 14 ≠ 0 := by
    rw [hg]
    norm_num
  exact ⟨le_refl 14, by simp, hl, hg0,
    C7_rsi_zero_loss [1,2,3,4,5,6,7,8,9,10,11,12,13,14,15] 14 (le_refl 14) (by simp)
      hl hg0⟩

/-- C8 counterexample: on the revenue series [100, 121] the GrowthEstimator
returns 21 % — the code's yearsSpan is the point count minus one, so this
series spans one period — not the claimed 10.00 %. -/
theorem C8_counterexample :
    get_historical_growth [100, 121] = some 21
      ∧ get_historical_growth [100, 121] ≠ some 10 := by
  have hlast : ([100, 121] : List ℚ).getLast! = 121 := rfl
  have h : get_historical_growth [100, 121] = some 21 := by
    unfold get_historical_growth
    rw [if_neg (by norm_num), if_neg (by norm_num)]
    rw [hlast]
    norm_num
  refine ⟨h, ?_⟩
  rw [h]
  intro hc
  have : (21 : ℝ) = 10 := by injection hc
  norm_num at this

/-- C8 (amended): for a chronologically ordered revenue series with at least 2
points and positive starting value the GrowthEstimator returns
CAGR = (lastValue/firstValue)^(1/yearsSpan) − 1 as a percentage, where
yearsSpan is the number of points minus one; fewer than 2 points or a
non-positive starting value yield an absent result.  The 2-point series
[100, 121] therefore spans one period and yields 21.00 %; 10.00 % is obtained
from a 3-point series such as [100, 110, 121]. -/
theorem C8_cagr_amended :
    (∀ revenues : List ℚ, 2 ≤ revenues.length → 0 < revenues.head! →
      get_historical_growth revenues
        = some ((((revenues.getLast! / revenues.head! : ℚ) : ℝ)
            ^ ((1 : ℝ) / ((revenues.length - 1 : ℕ) : ℝ)) - 1) * 100))
    ∧ (∀ revenues : List ℚ, revenues.length < 2 → get_historical_growth revenues = none)
    ∧ (∀ revenues : List ℚ, revenues.head! ≤ 0 → get_historical_growth revenues = none)
    ∧ get_historical_growth [100, 121] = some 21
    ∧ get_historical_growth [100, 110, 121] = some 10 := by
  refine ⟨?_, ?_, ?_, ?_, ?_⟩
  · intro revenues h2 hh
    unfold get_historical_growth
    rw [if_neg (not_lt.mpr h2), if_neg]
    push_neg
    exact ⟨hh, by omega⟩
  · intro revenues h
    unfold get_historical_growth
    rw [if_pos h]
  · intro revenues h
    unfold get_historical_growth
    by_cases h1 : revenues.length < 2
    · rw [if_pos h1]
    · rw [if_neg h1, if_pos (Or.inl h)]
  · unfold get_historical_growth
    rw [if_neg (by norm_num), if_neg (by norm_num)]
    rw [show ([100, 121] : List ℚ).getLast! = 121 from rfl]
    norm_num
  · unfold get_historical_growth
    rw [if_neg (by norm_num), if_neg (by norm_num)]
    rw [show ([100, 110, 121] : List ℚ).getLast! = 121 from rfl]
    have h2 : (([100, 110, 121] : List ℚ).length - 1 : ℕ) = 2 := by simp
    rw [h2]
    norm_num
    rw [show (121 / 100 : ℝ) = (11 / 10 : ℝ) ^ (2 : ℕ) from by norm_num,
        show ((1 : ℝ) / 2) = (((2 : ℕ) : ℝ))⁻¹ from by norm_num,
        Real.pow_rpow_inv_natCast (by norm_num) (by norm_num)]
    norm_num

/-- C8 witness: the 3-point series from 100 to 121 yields exactly 10.00 %. -/
theorem C8_cagr_amended_witness : get_historical_growth [100, 110, 121] = some 10 :=
  C8_cagr_amended.2.2.2.2
